import Mathlib

/-!
Shallow embedding of the research-aggregation and enrichment pipeline of
`app.py` (agent-newsletter).

Python search results are dictionaries with string keys; the pipeline reads
them with `r.get(key, default)` and writes them with `r[key] = v`.  We model
such a dictionary as a record of `Option`-valued fields covering exactly the
keys the pipeline touches; `r.get(k, d)` becomes `(r.k).getD d` and
`r[k] = v` becomes `{ r with k := some v }`.

The outbound LLM call together with the JSON parse of its reply is modelled
as a value of type `Except Unit (List LLMItem)`: `.error ()` is any raised
exception (network failure, `json.loads` failure), `.ok items` is a
successfully decoded JSON array of objects, each object again a record of
optional keys read with `.get`.  The search gateway
(`openai_client.search_web_responses_api`) is an explicit function argument;
a raised exception is `.error ()`.
-/

/-- A search-result dictionary (`app.py` passim): every key the pipeline
reads or writes, `none` when the key is absent. -/
structure Result where
  url : Option String := none
  title : Option String := none
  headline : Option String := none
  publisher : Option String := none
  published_at : Option String := none
  snippet : Option String := none
  description : Option String := none
  industry_data : Option String := none
  so_what : Option String := none
  impact : Option String := none
  signals : Option (List String) := none
  signal_source : Option String := none
  story_angle : Option String := none
  why_it_matters : Option String := none
  content_type : Option String := none
deriving DecidableEq

/-- One object of the JSON array decoded from the enrichment LLM response
(`app.py` lines 354, 456, 557): optional keys read with `.get`. -/
structure LLMItem where
  headline : Option String := none
  impact : Option String := none
  signals : Option (List String) := none
  so_what : Option String := none
  story_angle : Option String := none
  why_it_matters : Option String := none
  content_type : Option String := none
  industry_data : Option String := none
deriving DecidableEq

/-- One call issued to the search gateway, recorded so that call-count and
requested-size properties can be stated (mirrors the arguments of
`openai_client.search_web_responses_api` in `multi_search`, lines 204-208). -/
structure GatewayCall where
  query : String
  maxResults : Nat
  excludeUrls : List String
deriving DecidableEq

/-- `r.get('url', '')` — the URL key used by every dedup merge. -/
def urlKey (r : Result) : String := r.url.getD ""

/-- Boolean predicate "this entry's URL is `u`". -/
def urlIs (u : String) (r : Result) : Bool := urlKey r == u

/-- Python's substring test `needle in hay` on character lists. -/
def substrB (needle : List Char) : List Char → Bool
  | [] => needle.isEmpty
  | c :: t => needle.isPrefixOf (c :: t) || substrB needle t

/-- `needle in hay` on strings. -/
def strContainsB (hay needle : String) : Bool := substrB needle.data hay.data

/-- `PROMOTION_KEYWORDS` (`app.py` lines 158-164). -/
def PROMOTION_KEYWORDS : List String :=
  ["promoted to", "announces promotion", "new ceo", "new president",
   "executive appointment", "joins as", "named to", "leadership change",
   "personnel announcement", "new hire", "appointed as", "steps down",
   "retires from", "announces retirement", "names new", "appoints",
   "welcomes new", "hires", "executive team", "board of directors appoints"]

/-- Python's `str.lower()`, character by character. -/
def strLower (s : String) : String := String.mk (s.data.map Char.toLower)

/-- The combined lowercased text tested by the filter (`app.py` lines
171-173): `(title + ' ' + headline).lower() + ' ' + description.lower()`
with `description` falling back to `snippet`. -/
def result_combined_text (r : Result) : String :=
  let title := strLower ((r.title.getD "") ++ " " ++ (r.headline.getD ""))
  let description := strLower (r.description.getD (r.snippet.getD ""))
  title ++ " " ++ description

/-- `any(keyword in combined_text for keyword in PROMOTION_KEYWORDS)`
(`app.py` line 175). -/
def is_promotion_news (r : Result) : Bool :=
  PROMOTION_KEYWORDS.any (fun k => strContainsB (result_combined_text r) k)

/-- `filter_promotion_news` (`app.py` lines 167-182): keep, in order, the
results that are not promotion news. -/
def filter_promotion_news (results : List Result) : List Result :=
  results.filter (fun r => !is_promotion_news r)

/-- The sort key `impact_order.get(x.get('impact', 'LOW'), 2)` with
`impact_order = {'HIGH': 0, 'MEDIUM': 1, 'LOW': 2}` (`app.py` lines
366-367 and 571-572). -/
def impact_order_key (r : Result) : Nat :=
  match r.impact.getD "LOW" with
  | "HIGH" => 0
  | "MEDIUM" => 1
  | "LOW" => 2
  | _ => 2

/-- `results.sort(key=impact_order_key)`: Python `list.sort` is a stable
sort, modelled by the stable `List.mergeSort`. -/
def rankByImpact (l : List Result) : List Result :=
  l.mergeSort (fun a b => decide (impact_order_key a ≤ impact_order_key b))

/-- One step of the dedup merge loop shared by `multi_search` (lines
210-214) and `search_all_signals` (lines 266-271): given the state
`(seen_urls, all_results)` and one incoming result, append it (after the
per-loop tagging `tag`) iff its URL is non-empty and unseen. -/
def addWith (tag : Result → Result) (p : List String × List Result)
    (r : Result) : List String × List Result :=
  if urlKey r ≠ "" ∧ urlKey r ∉ p.1 then (urlKey r :: p.1, p.2 ++ [tag r]) else p

/-- Merge one batch of gateway results into the running state. -/
def mergeBatch (tag : Result → Result) (p : List String × List Result)
    (rs : List Result) : List String × List Result :=
  rs.foldl (addWith tag) p

/-- One iteration of the signal loop (`app.py` lines 254-277): a raising
gateway call leaves the state untouched; a successful one merges its batch,
tagging each newly added entry with the signal name
(`r['signal_source'] = signal`, line 269). -/
def signal_step (p : List String × List Result)
    (sb : String × Except Unit (List Result)) : List String × List Result :=
  match sb.2 with
  | .error _ => p
  | .ok rs => mergeBatch (fun r => { r with signal_source := some sb.1 }) p rs

/-- `search_all_signals` (`app.py` lines 229-280), with the gateway
abstracted: `batches` pairs each signal name with either `.error ()` (the
gateway call raised; the signal is skipped) or the batch it returned.
`seen_urls` starts as the exclude set. -/
def search_all_signals (batches : List (String × Except Unit (List Result)))
    (exclude_urls : List String) : List Result :=
  (batches.foldl signal_step (exclude_urls, [])).2

/-- The first result carrying URL `u` across the successful batches, in
batch order then in-batch order, tagged with its batch's signal: the entry
the first-occurrence-wins dedup rule designates as the survivor. -/
def firstHit (u : String) : List (String × Except Unit (List Result)) → Option Result
  | [] => none
  | (_, .error _) :: bs => firstHit u bs
  | (s, .ok rs) :: bs =>
    match rs.find? (urlIs u) with
    | some r => some { r with signal_source := some s }
    | none => firstHit u bs

/-- The instrumented outcome of the `multi_search` cascade loop: the merged
pool, the gateway calls issued, and the batches returned by the successful
calls, in order. -/
structure SearchTrace where
  pool : List Result
  calls : List GatewayCall
  consumed : List (List Result)
deriving DecidableEq

/-- The cascade loop of `multi_search` (`app.py` lines 200-224): iterate
the queries in order; each gateway call requests 6 results (line 206) and
passes `exclude_urls + list(seen_urls)`; a raising call is caught and
skipped (lines 222-224); after merging a batch, stop as soon as the pool
has reached `max_results` (lines 218-220). -/
def multi_search_go (gateway : String → Nat → List String → Except Unit (List Result))
    (exclude_urls : List String) (max_results : Nat) :
    List String → List String → List Result → SearchTrace
  | [], _, acc => ⟨acc, [], []⟩
  | q :: qs, seen, acc =>
    let call : GatewayCall := ⟨q, 6, exclude_urls ++ seen⟩
    match gateway q 6 (exclude_urls ++ seen) with
    | .error _ =>
      let rest := multi_search_go gateway exclude_urls max_results qs seen acc
      ⟨rest.pool, call :: rest.calls, rest.consumed⟩
    | .ok rs =>
      let p := mergeBatch (fun r => r) (seen, acc) rs
      if max_results ≤ p.2.length then ⟨p.2, [call], [rs]⟩
      else
        let rest := multi_search_go gateway exclude_urls max_results qs p.1 p.2
        ⟨rest.pool, call :: rest.calls, rs :: rest.consumed⟩

/-- `multi_search` (`app.py` lines 185-226): run the cascade and return
`all_results[:max_results]`. -/
def multi_search (gateway : String → Nat → List String → Except Unit (List Result))
    (queries : List String) (max_results : Nat)
    (exclude_urls : List String) : List Result :=
  (multi_search_go gateway exclude_urls max_results queries [] []).pool.take max_results

/-- The positional merge loop of `analyze_industry_impact` (`app.py` lines
357-364): result `i` receives the parsed fields of response object `i`
when `i < len(enriched)` and is left untouched otherwise. -/
def impact_merge (enriched : List LLMItem) (results : List Result) : List Result :=
  results.enum.map (fun p =>
    match enriched[p.1]? with
    | some e =>
      { p.2 with
        headline := some (e.headline.getD (p.2.title.getD "")),
        impact := some (e.impact.getD "MEDIUM"),
        signals := some (e.signals.getD []),
        so_what := some (e.so_what.getD ""),
        industry_data := some (p.2.description.getD (p.2.snippet.getD "")) }
    | none => p.2)

/-- The per-result defaults of the exception path of
`analyze_industry_impact` (`app.py` lines 377-382). -/
def analyze_impact_defaults (r : Result) : Result :=
  { r with
    headline := some (r.title.getD "Industry Update"),
    impact := some "MEDIUM",
    signals := some [r.signal_source.getD "general"],
    so_what := some "Monitor this trend for potential client impact." }

/-- `analyze_industry_impact` (`app.py` lines 283-383): on a decoded
response, positional merge, then stable sort by impact, then the promotion
filter; on any exception, defaults for every result. -/
def analyze_industry_impact (resp : Except Unit (List LLMItem))
    (results : List Result) : List Result :=
  if results.isEmpty then results
  else
    match resp with
    | .ok enriched => filter_promotion_news (rankByImpact (impact_merge enriched results))
    | .error _ => results.map analyze_impact_defaults

/-- The positional merge loop of `analyze_story_angles` (`app.py` lines
459-467). -/
def angles_merge (enriched : List LLMItem) (results : List Result) : List Result :=
  results.enum.map (fun p =>
    match enriched[p.1]? with
    | some e =>
      { p.2 with
        story_angle := some (e.story_angle.getD ""),
        headline := some (e.headline.getD (p.2.title.getD "")),
        why_it_matters := some (e.why_it_matters.getD ""),
        content_type := some (e.content_type.getD "insight"),
        so_what := some (e.why_it_matters.getD (p.2.so_what.getD "")),
        industry_data := some (p.2.snippet.getD (p.2.description.getD "")) }
    | none => p.2)

/-- The per-result defaults of the exception path of `analyze_story_angles`
(`app.py` lines 478-482). -/
def angles_defaults (r : Result) : Result :=
  { r with
    story_angle := some ((r.snippet.getD "").take 150),
    headline := some (r.title.getD "Industry Update"),
    why_it_matters := some "Review this article for potential newsletter content.",
    content_type := some "insight" }

/-- `analyze_story_angles` (`app.py` lines 386-483): positional merge then
the promotion filter (no impact sort in this function); on any exception,
defaults for every result. -/
def analyze_story_angles (resp : Except Unit (List LLMItem))
    (results : List Result) (user_query : String) : List Result :=
  if results.isEmpty then results
  else
    match resp with
    | .ok enriched => filter_promotion_news (angles_merge enriched results)
    | .error _ => results.map angles_defaults

/-- The positional merge loop of `enrich_results_with_llm` (`app.py` lines
560-568): note `r['title'] = r['headline']` (line 563) and
`r['snippet'] = r['industry_data']` (line 568). -/
def enrich_merge (enriched : List LLMItem) (results : List Result) : List Result :=
  results.enum.map (fun p =>
    match enriched[p.1]? with
    | some e =>
      let headline := e.headline.getD (p.2.title.getD "")
      let industry_data := e.industry_data.getD (p.2.snippet.getD "")
      { p.2 with
        headline := some headline,
        title := some headline,
        industry_data := some industry_data,
        so_what := some (e.so_what.getD ""),
        impact := some (e.impact.getD "MEDIUM"),
        snippet := some industry_data }
    | none => p.2)

/-- `enrich_results_with_llm` (`app.py` lines 486-581): positional merge
then stable sort by impact; on any exception, the results are returned
unchanged (lines 577-581 add no defaults). -/
def enrich_results_with_llm (resp : Except Unit (List LLMItem))
    (original_query : String) (results : List Result) : List Result :=
  if results.isEmpty then results
  else
    match resp with
    | .ok enriched => rankByImpact (enrich_merge enriched results)
    | .error _ => results

/-- The comparison used by `rankByImpact`, as a named function. -/
def impactLe (a b : Result) : Bool := decide (impact_order_key a ≤ impact_order_key b)

/-- Buckets of the stable impact sort. -/
def impactBucket (i : Nat) (l : List Result) : List Result :=
  l.filter (fun r => impact_order_key r == i)

/-- Invariant of the dedup-merge state `(seen_urls, all_results)` relative
to an initial exclusion set `E`: `E` stays inside `seen_urls`, every pooled
entry has a non-empty URL that is in `seen_urls` and outside `E`, and
pooled URLs are pairwise distinct. -/
def MergeInv (E : List String) (p : List String × List Result) : Prop :=
  (∀ u ∈ E, u ∈ p.1) ∧
  (∀ r ∈ p.2, urlKey r ∈ p.1 ∧ urlKey r ≠ "" ∧ urlKey r ∉ E) ∧
  (p.2.map urlKey).Nodup

/-! ### General helper lemmas -/

theorem split_of_append_eq_append {α : Type} (p : α → Bool) :
    ∀ (l1 : List α) (r1 : List α) {l2 r2 : List α}, l1 ++ l2 = r1 ++ r2 →
      (∀ x ∈ l1, p x = true) → (∀ x ∈ l2, p x = false) →
      (∀ x ∈ r1, p x = true) → (∀ x ∈ r2, p x = false) →
      l1 = r1 ∧ l2 = r2 := by
  intro l1
  induction l1 with
  | nil =>
    intro r1 l2 r2 heq _ h2 h3 _
    cases r1 with
    | nil => exact ⟨rfl, heq⟩
    | cons b r1 =>
      exfalso
      have hb : b ∈ l2 := by rw [List.nil_append] at heq; rw [heq]; simp
      have := h2 b hb
      have := h3 b (by simp)
      simp_all
  | cons a l1 ih =>
    intro r1 l2 r2 heq h1 h2 h3 h4
    cases r1 with
    | nil =>
      exfalso
      have ha : a ∈ r2 := by rw [List.nil_append] at heq; rw [← heq]; simp
      have := h1 a (by simp)
      have := h4 a ha
      simp_all
    | cons b r1 =>
      simp only [List.cons_append, List.cons.injEq] at heq
      obtain ⟨hab, htl⟩ := heq
      obtain ⟨hl, hr⟩ := ih r1 htl (fun x hx => h1 x (by simp [hx]))
        h2 (fun x hx => h3 x (by simp [hx])) h4
      exact ⟨by rw [hab, hl], hr⟩

theorem impactLe_trans : ∀ a b c, impactLe a b = true → impactLe b c = true → impactLe a c = true := by
  intro a b c hab hbc
  simp only [impactLe, decide_eq_true_iff] at *
  omega

theorem impactLe_total : ∀ a b, (impactLe a b || impactLe b a) = true := by
  intro a b
  simp only [impactLe, Bool.or_eq_true, decide_eq_true_iff]
  omega

theorem impact_order_key_le_two (r : Result) : impact_order_key r ≤ 2 := by
  unfold impact_order_key
  split <;> omega

theorem rankByImpact_eq_buckets (l : List Result) :
    rankByImpact l = impactBucket 0 l ++ impactBucket 1 l ++ impactBucket 2 l := by
  induction l with
  | nil => simp [rankByImpact, impactBucket]
  | cons a l ih =>
    have hrank : rankByImpact (a :: l) = (a :: l).mergeSort impactLe := rfl
    obtain ⟨l₁, l₂, h1, h2, h3⟩ := List.mergeSort_cons impactLe_trans impactLe_total a l
    have hsorted := List.sorted_mergeSort impactLe_trans impactLe_total (a :: l)
    rw [h1] at hsorted
    have hl₁ : ∀ b ∈ l₁, impact_order_key b < impact_order_key a := by
      intro b hb
      have := h3 b hb
      simp only [impactLe, Bool.not_eq_true', decide_eq_false_iff_not] at this
      omega
    have hl₂ : ∀ b ∈ l₂, impact_order_key a ≤ impact_order_key b := by
      intro b hb
      have hpair := (List.pairwise_append.mp hsorted).2.1
      have := (List.pairwise_cons.mp hpair).1 b hb
      simpa [impactLe, decide_eq_true_iff] using this
    have hih : l₁ ++ l₂ = impactBucket 0 l ++ impactBucket 1 l ++ impactBucket 2 l := by
      rw [← h2]; exact ih ▸ rfl
    have hb0 : ∀ x ∈ impactBucket 0 l, impact_order_key x = 0 := by
      intro x hx; simpa using (List.mem_filter.mp hx).2
    have hb1 : ∀ x ∈ impactBucket 1 l, impact_order_key x = 1 := by
      intro x hx; simpa using (List.mem_filter.mp hx).2
    have hb2 : ∀ x ∈ impactBucket 2 l, impact_order_key x = 2 := by
      intro x hx; simpa using (List.mem_filter.mp hx).2
    rw [hrank, h1]
    rcases hk3 : impact_order_key a with _ | _ | _ | n
    · -- key a = 0
      have hl1nil : l₁ = [] := by
        cases l₁ with
        | nil => rfl
        | cons b t => exact absurd (hl₁ b (by simp)) (by rw [hk3]; omega)
      subst hl1nil
      simp only [List.nil_append] at hih
      rw [List.nil_append, hih]
      simp [impactBucket, List.filter_cons, hk3, List.append_assoc]
    · -- key a = 1
      have hsplit := split_of_append_eq_append (fun r => impact_order_key r == 0) l₁
        (impactBucket 0 l) (by rw [hih, List.append_assoc])
        (by intro x hx; have := hl₁ x hx; rw [hk3] at this
            simp only [beq_iff_eq]; omega)
        (by intro x hx; have := hl₂ x hx; rw [hk3] at this
            simp only [beq_eq_false_iff_ne, ne_eq]; omega)
        (by intro x hx; simp [hb0 x hx])
        (by intro x hx
            rcases List.mem_append.mp hx with h | h
            · simp [hb1 x h]
            · simp [hb2 x h])
      obtain ⟨he1, he2⟩ := hsplit
      rw [he1, he2]
      simp [impactBucket, List.filter_cons, hk3]
    · -- key a = 2
      have hsplit := split_of_append_eq_append (fun r => decide (impact_order_key r ≤ 1)) l₁
        (impactBucket 0 l ++ impactBucket 1 l) hih
        (by intro x hx; have := hl₁ x hx; rw [hk3] at this
            simp only [decide_eq_true_iff]; omega)
        (by intro x hx; have := hl₂ x hx; rw [hk3] at this
            simp only [decide_eq_false_iff_not]; omega)
        (by intro x hx
            rcases List.mem_append.mp hx with h | h
            · have := hb0 x h; simp only [decide_eq_true_iff]; omega
            · have := hb1 x h; simp only [decide_eq_true_iff]; omega)
        (by intro x hx; have := hb2 x hx; simp only [decide_eq_false_iff_not]; omega)
      obtain ⟨he1, he2⟩ := hsplit
      rw [he1, he2]
      simp [impactBucket, List.filter_cons, hk3]
    · exact absurd (impact_order_key_le_two a) (by rw [hk3]; omega)

/-! ### Dedup-merge lemmas -/

theorem addWith_seen_mono {tag : Result → Result} {p : List String × List Result}
    {r : Result} {u : String} (h : u ∈ p.1) : u ∈ (addWith tag p r).1 := by
  unfold addWith
  split
  · exact List.mem_cons_of_mem _ h
  · exact h

theorem mergeBatch_seen_mono {tag : Result → Result} :
    ∀ (rs : List Result) (p : List String × List Result) {u : String},
      u ∈ p.1 → u ∈ (mergeBatch tag p rs).1 := by
  intro rs
  induction rs with
  | nil => intro p u h; exact h
  | cons r rs ih => intro p u h; exact ih (addWith tag p r) (addWith_seen_mono h)

theorem mergeBatch_seen_mem {tag : Result → Result} {u : String} (hu : u ≠ "") :
    ∀ (rs : List Result) (p : List String × List Result),
      (u ∈ (mergeBatch tag p rs).1 ↔ u ∈ p.1 ∨ ∃ r ∈ rs, urlKey r = u) := by
  intro rs
  induction rs with
  | nil => intro p; simp [mergeBatch]
  | cons r rs ih =>
    intro p
    show u ∈ (mergeBatch tag (addWith tag p r) rs).1 ↔ _
    rw [ih (addWith tag p r)]
    unfold addWith
    split
    · rename_i hcond
      constructor
      · rintro (h | ⟨r', hr', hu'⟩)
        · rcases List.mem_cons.mp h with h | h
          · exact Or.inr ⟨r, List.mem_cons_self _ _, h.symm⟩
          · exact Or.inl h
        · exact Or.inr ⟨r', List.mem_cons_of_mem _ hr', hu'⟩
      · rintro (h | ⟨r', hr', hu'⟩)
        · exact Or.inl (List.mem_cons_of_mem _ h)
        · rcases List.mem_cons.mp hr' with h | h
          · exact Or.inl (by rw [← hu', h]; exact List.mem_cons_self _ _)
          · exact Or.inr ⟨r', h, hu'⟩
    · rename_i hcond
      push_neg at hcond
      constructor
      · rintro (h | ⟨r', hr', hu'⟩)
        · exact Or.inl h
        · exact Or.inr ⟨r', List.mem_cons_of_mem _ hr', hu'⟩
      · rintro (h | ⟨r', hr', hu'⟩)
        · exact Or.inl h
        · rcases List.mem_cons.mp hr' with h | h
          · subst h
            have hne : urlKey r' ≠ "" := by rw [hu']; exact hu
            exact Or.inl (hu' ▸ hcond hne)
          · exact Or.inr ⟨r', h, hu'⟩

theorem mergeBatch_find {tag : Result → Result} (htag : ∀ r, urlKey (tag r) = urlKey r)
    {u : String} (hu : u ≠ "") :
    ∀ (rs : List Result) (seen : List String) (acc : List Result),
      ((mergeBatch tag (seen, acc) rs).2).find? (urlIs u)
        = (acc.find? (urlIs u)).or
            (if u ∈ seen then none else (rs.find? (urlIs u)).map tag) := by
  intro rs
  induction rs with
  | nil =>
    intro seen acc
    simp only [mergeBatch, List.foldl_nil, List.find?_nil, Option.map_none]
    split <;> simp [Option.or_none]
  | cons r rs ih =>
    intro seen acc
    show ((mergeBatch tag (addWith tag (seen, acc) r) rs).2).find? (urlIs u) = _
    unfold addWith
    by_cases hcond : urlKey r ≠ "" ∧ urlKey r ∉ seen
    · rw [if_pos hcond]
      rw [ih (urlKey r :: seen) (acc ++ [tag r])]
      rw [List.find?_append]
      by_cases hru : urlKey r = u
      · have hus : u ∉ seen := hru ▸ hcond.2
        have hfind1 : List.find? (urlIs u) [tag r] = some (tag r) := by
          simp [List.find?, urlIs, htag r, hru]
        have hfind2 : List.find? (urlIs u) (r :: rs) = some r := by
          simp [List.find?_cons, urlIs, hru]
        rw [hfind1, hfind2]
        rw [if_pos (by rw [hru]; exact List.mem_cons_self _ _)]
        rw [if_neg hus]
        simp [Option.or_assoc, Option.or_none]
      · have hbe : (urlKey r == u) = false := by simp [hru]
        have hfind1 : List.find? (urlIs u) [tag r] = none := by
          simp [List.find?, urlIs, htag r, hbe]
        have hfind2 : List.find? (urlIs u) (r :: rs) = List.find? (urlIs u) rs := by
          simp [List.find?_cons, urlIs, hbe]
        rw [hfind1, hfind2, Option.or_none]
        have : (u ∈ urlKey r :: seen) ↔ u ∈ seen := by
          simp only [List.mem_cons]
          constructor
          · rintro (h | h)
            · exact absurd h.symm hru
            · exact h
          · exact Or.inr
        by_cases hus : u ∈ seen
        · rw [if_pos (this.mpr hus), if_pos hus]
        · rw [if_neg (fun hc => hus (this.mp hc)), if_neg hus]
    · rw [if_neg hcond]
      rw [ih seen acc]
      by_cases hus : u ∈ seen
      · rw [if_pos hus, if_pos hus]
      · rw [if_neg hus, if_neg hus]
        rw [Decidable.not_and_iff_or_not] at hcond
        simp only [not_not] at hcond
        have hru : urlKey r ≠ u := by
          rcases hcond with hc | hc
          · intro he; exact hu (he ▸ hc)
          · intro he; exact hus (he ▸ hc)
        have hbe : (urlKey r == u) = false := by simp [hru]
        have : List.find? (urlIs u) (r :: rs) = List.find? (urlIs u) rs := by
          simp [List.find?_cons, urlIs, hbe]
        rw [this]

theorem addWith_inv {tag : Result → Result} (htag : ∀ r, urlKey (tag r) = urlKey r)
    {E : List String} {p : List String × List Result} {r : Result}
    (h : MergeInv E p) : MergeInv E (addWith tag p r) := by
  obtain ⟨hE, hmem, hnd⟩ := h
  unfold addWith
  split
  · rename_i hcond
    refine ⟨fun u hu => List.mem_cons_of_mem _ (hE u hu), ?_, ?_⟩
    · intro x hx
      rcases List.mem_append.mp hx with hx | hx
      · obtain ⟨h1, h2, h3⟩ := hmem x hx
        exact ⟨List.mem_cons_of_mem _ h1, h2, h3⟩
      · rcases List.mem_singleton.mp hx with rfl
        rw [htag r]
        exact ⟨List.mem_cons_self _ _, hcond.1, fun hc => hcond.2 (hE _ hc)⟩
    · rw [List.map_append]
      rw [List.nodup_append]
      refine ⟨hnd, by simp, ?_⟩
      intro x hx
      simp only [List.map_cons, List.map_nil, List.mem_singleton, htag r]
      rintro rfl
      obtain ⟨x', hx', hx'u⟩ := List.mem_map.mp hx
      exact hcond.2 (hx'u ▸ (hmem x' hx').1)
  · exact ⟨hE, hmem, hnd⟩

theorem mergeBatch_inv {tag : Result → Result} (htag : ∀ r, urlKey (tag r) = urlKey r)
    {E : List String} :
    ∀ (rs : List Result) (p : List String × List Result),
      MergeInv E p → MergeInv E (mergeBatch tag p rs) := by
  intro rs
  induction rs with
  | nil => intro p h; exact h
  | cons r rs ih => intro p h; exact ih (addWith tag p r) (addWith_inv htag h)

theorem mergeBatch_pool_sublist {tag : Result → Result} :
    ∀ (rs : List Result) (seen : List String) (acc : List Result),
      ((mergeBatch tag (seen, acc) rs).2).Sublist (acc ++ rs.map tag) := by
  intro rs
  induction rs with
  | nil =>
    intro seen acc
    simp only [mergeBatch, List.foldl_nil, List.map_nil, List.append_nil]
    exact List.Sublist.refl acc
  | cons r rs ih =>
    intro seen acc
    show ((mergeBatch tag (addWith tag (seen, acc) r) rs).2).Sublist _
    unfold addWith
    split
    · have := ih (urlKey r :: seen) (acc ++ [tag r])
      simpa [List.append_assoc] using this
    · have h1 := ih seen acc
      have h2 : (acc ++ rs.map tag).Sublist (acc ++ (r :: rs).map tag) := by
        refine List.Sublist.append (List.Sublist.refl acc) ?_
        simp [List.sublist_cons_self]
      exact h1.trans h2

/-! ### Signal fan-out lemmas -/

theorem signal_tag_url (s : String) :
    ∀ r : Result, urlKey { r with signal_source := some s } = urlKey r :=
  fun _ => rfl

theorem signals_fold_inv {E : List String} :
    ∀ (batches : List (String × Except Unit (List Result)))
      (p : List String × List Result),
      MergeInv E p → MergeInv E (batches.foldl signal_step p) := by
  intro batches
  induction batches with
  | nil => intro p h; exact h
  | cons sb bs ih =>
    intro p h
    rw [List.foldl_cons]
    refine ih _ ?_
    match sb with
    | (s, .error e) => exact h
    | (s, .ok rs) => exact mergeBatch_inv (signal_tag_url s) rs p h

theorem signals_fold_find {u : String} (hu : u ≠ "") :
    ∀ (batches : List (String × Except Unit (List Result)))
      (seen : List String) (acc : List Result),
      ((batches.foldl signal_step (seen, acc)).2).find? (urlIs u)
        = (acc.find? (urlIs u)).or (if u ∈ seen then none else firstHit u batches) := by
  intro batches
  induction batches with
  | nil =>
    intro seen acc
    simp only [List.foldl_nil, firstHit]
    split <;> simp [Option.or_none]
  | cons sb bs ih =>
    intro seen acc
    rw [List.foldl_cons]
    match sb with
    | (s, .error e) =>
      show ((bs.foldl signal_step (signal_step (seen, acc) (s, .error e))).2).find? (urlIs u) = _
      rw [show signal_step (seen, acc) (s, Except.error e) = (seen, acc) from rfl]
      rw [ih seen acc]
      rfl
    | (s, .ok rs) =>
      show ((bs.foldl signal_step (signal_step (seen, acc) (s, .ok rs))).2).find? (urlIs u) = _
      rw [show signal_step (seen, acc) (s, Except.ok rs)
            = mergeBatch (fun r => { r with signal_source := some s }) (seen, acc) rs from rfl]
      have hpair : mergeBatch (fun r => { r with signal_source := some s }) (seen, acc) rs
          = ((mergeBatch (fun r => { r with signal_source := some s }) (seen, acc) rs).1,
             (mergeBatch (fun r => { r with signal_source := some s }) (seen, acc) rs).2) := rfl
      rw [hpair, ih]
      rw [mergeBatch_find (signal_tag_url s) hu rs seen acc]
      have hfh : firstHit u ((s, .ok rs) :: bs)
          = match rs.find? (urlIs u) with
            | some r => some { r with signal_source := some s }
            | none => firstHit u bs := rfl
      by_cases hus : u ∈ seen
      · have hus' : u ∈ (mergeBatch (fun r => { r with signal_source := some s }) (seen, acc) rs).1 :=
          mergeBatch_seen_mono rs (seen, acc) hus
        rw [if_pos hus, if_pos hus', if_pos hus]
        simp [Option.or_none]
      · rw [if_neg hus, if_neg hus]
        rcases hfind : rs.find? (urlIs u) with _ | r
        · have hus' : u ∉ (mergeBatch (fun r => { r with signal_source := some s }) (seen, acc) rs).1 := by
            rw [mergeBatch_seen_mem hu rs (seen, acc)]
            rintro (h | ⟨r', hr', hu'⟩)
            · exact hus h
            · have := List.find?_eq_none.mp hfind r' hr'
              simp only [urlIs, hu'] at this
              exact this (by simp)
          rw [if_neg hus', hfh, hfind]
          simp [Option.or_assoc, Option.or_none]
        · have hmem : r ∈ rs := List.mem_of_find?_eq_some hfind
          have hurl : urlKey r = u := by
            have := List.find?_some hfind
            simpa [urlIs] using this
          have hus' : u ∈ (mergeBatch (fun r => { r with signal_source := some s }) (seen, acc) rs).1 := by
            rw [mergeBatch_seen_mem hu rs (seen, acc)]
            exact Or.inr ⟨r, hmem, hurl⟩
          rw [if_pos hus', hfh, hfind]
          simp [Option.or_assoc, Option.or_none]

/-! ### Cascade (multi_search) lemmas -/

theorem map_id_result (x : Option Result) : x.map (fun r => r) = x := by
  cases x <;> rfl

theorem go_error_skip {g : String → Nat → List String → Except Unit (List Result)}
    {e : List String} {t : Nat} {q : String} {qs : List String}
    {seen : List String} {acc : List Result} {x : Unit}
    (hg : g q 6 (e ++ seen) = .error x) :
    multi_search_go g e t (q :: qs) seen acc
      = ⟨(multi_search_go g e t qs seen acc).pool,
         ⟨q, 6, e ++ seen⟩ :: (multi_search_go g e t qs seen acc).calls,
         (multi_search_go g e t qs seen acc).consumed⟩ := by
  simp only [multi_search_go, hg]

theorem go_ok_stop {g : String → Nat → List String → Except Unit (List Result)}
    {e : List String} {t : Nat} {q : String} {qs : List String}
    {seen : List String} {acc : List Result} {rs : List Result}
    (hg : g q 6 (e ++ seen) = .ok rs)
    (hlen : t ≤ ((mergeBatch (fun r => r) (seen, acc) rs).2).length) :
    multi_search_go g e t (q :: qs) seen acc
      = ⟨(mergeBatch (fun r => r) (seen, acc) rs).2, [⟨q, 6, e ++ seen⟩], [rs]⟩ := by
  simp only [multi_search_go, hg, if_pos hlen]

theorem go_ok_continue {g : String → Nat → List String → Except Unit (List Result)}
    {e : List String} {t : Nat} {q : String} {qs : List String}
    {seen : List String} {acc : List Result} {rs : List Result}
    (hg : g q 6 (e ++ seen) = .ok rs)
    (hlen : ¬ t ≤ ((mergeBatch (fun r => r) (seen, acc) rs).2).length) :
    multi_search_go g e t (q :: qs) seen acc
      = ⟨(multi_search_go g e t qs (mergeBatch (fun r => r) (seen, acc) rs).1
            (mergeBatch (fun r => r) (seen, acc) rs).2).pool,
         ⟨q, 6, e ++ seen⟩ :: (multi_search_go g e t qs (mergeBatch (fun r => r) (seen, acc) rs).1
            (mergeBatch (fun r => r) (seen, acc) rs).2).calls,
         rs :: (multi_search_go g e t qs (mergeBatch (fun r => r) (seen, acc) rs).1
            (mergeBatch (fun r => r) (seen, acc) rs).2).consumed⟩ := by
  simp only [multi_search_go, hg, if_neg hlen]

theorem go_calls_queries {g : String → Nat → List String → Except Unit (List Result)}
    {e : List String} {t : Nat} :
    ∀ (qs : List String) (seen : List String) (acc : List Result),
      ((multi_search_go g e t qs seen acc).calls.map GatewayCall.query) <+: qs := by
  intro qs
  induction qs with
  | nil => intro seen acc; simp [multi_search_go]
  | cons q qs ih =>
    intro seen acc
    rcases hg : g q 6 (e ++ seen) with x | rs
    · rw [go_error_skip hg]
      obtain ⟨tl, htl⟩ := ih seen acc
      exact ⟨tl, by simp [htl]⟩
    · by_cases hlen : t ≤ ((mergeBatch (fun r => r) (seen, acc) rs).2).length
      · rw [go_ok_stop hg hlen]
        simp
      · rw [go_ok_continue hg hlen]
        obtain ⟨tl, htl⟩ := ih (mergeBatch (fun r => r) (seen, acc) rs).1
          (mergeBatch (fun r => r) (seen, acc) rs).2
        exact ⟨tl, by simp [htl]⟩

theorem go_calls_max {g : String → Nat → List String → Except Unit (List Result)}
    {e : List String} {t : Nat} :
    ∀ (qs : List String) (seen : List String) (acc : List Result) (c : GatewayCall),
      c ∈ (multi_search_go g e t qs seen acc).calls → c.maxResults = 6 := by
  intro qs
  induction qs with
  | nil => intro seen acc c hc; simp [multi_search_go] at hc
  | cons q qs ih =>
    intro seen acc c hc
    rcases hg : g q 6 (e ++ seen) with x | rs
    · rw [go_error_skip hg] at hc
      rcases List.mem_cons.mp hc with h | h
      · rw [h]
      · exact ih seen acc c h
    · by_cases hlen : t ≤ ((mergeBatch (fun r => r) (seen, acc) rs).2).length
      · rw [go_ok_stop hg hlen] at hc
        rcases List.mem_singleton.mp hc with rfl
        rfl
      · rw [go_ok_continue hg hlen] at hc
        rcases List.mem_cons.mp hc with h | h
        · rw [h]
        · exact ih _ _ c h

theorem go_inv {g : String → Nat → List String → Except Unit (List Result)}
    {e : List String} {t : Nat} {E : List String} :
    ∀ (qs : List String) (seen : List String) (acc : List Result),
      MergeInv E (seen, acc) →
      ∃ s, MergeInv E (s, (multi_search_go g e t qs seen acc).pool) := by
  intro qs
  induction qs with
  | nil => intro seen acc h; exact ⟨seen, h⟩
  | cons q qs ih =>
    intro seen acc h
    rcases hg : g q 6 (e ++ seen) with x | rs
    · rw [go_error_skip hg]
      exact ih seen acc h
    · have hminv := @mergeBatch_inv (fun r => r) (fun _ => rfl) E rs (seen, acc) h
      by_cases hlen : t ≤ ((mergeBatch (fun r => r) (seen, acc) rs).2).length
      · rw [go_ok_stop hg hlen]
        exact ⟨(mergeBatch (fun r => r) (seen, acc) rs).1, hminv⟩
      · rw [go_ok_continue hg hlen]
        exact ih _ _ hminv

theorem go_pool_sublist {g : String → Nat → List String → Except Unit (List Result)}
    {e : List String} {t : Nat} :
    ∀ (qs : List String) (seen : List String) (acc : List Result),
      ((multi_search_go g e t qs seen acc).pool).Sublist
        (acc ++ (multi_search_go g e t qs seen acc).consumed.flatten) := by
  intro qs
  induction qs with
  | nil =>
    intro seen acc
    simp only [multi_search_go, List.flatten_nil, List.append_nil]
    exact List.Sublist.refl acc
  | cons q qs ih =>
    intro seen acc
    rcases hg : g q 6 (e ++ seen) with x | rs
    · rw [go_error_skip hg]
      exact ih seen acc
    · by_cases hlen : t ≤ ((mergeBatch (fun r => r) (seen, acc) rs).2).length
      · rw [go_ok_stop hg hlen]
        have := @mergeBatch_pool_sublist (fun r => r) rs seen acc
        simpa using this
      · rw [go_ok_continue hg hlen]
        have h1 := ih (mergeBatch (fun r => r) (seen, acc) rs).1 (mergeBatch (fun r => r) (seen, acc) rs).2
        have h2 := @mergeBatch_pool_sublist (fun r => r) rs seen acc
        have h3 : ((mergeBatch (fun r => r) (seen, acc) rs).2
              ++ (multi_search_go g e t qs (mergeBatch (fun r => r) (seen, acc) rs).1
                    (mergeBatch (fun r => r) (seen, acc) rs).2).consumed.flatten).Sublist
            ((acc ++ rs.map (fun r => r))
              ++ (multi_search_go g e t qs (mergeBatch (fun r => r) (seen, acc) rs).1
                    (mergeBatch (fun r => r) (seen, acc) rs).2).consumed.flatten) :=
          h2.append (List.Sublist.refl _)
        have h4 := h1.trans h3
        simpa [List.append_assoc, List.map_id] using h4

theorem go_find {g : String → Nat → List String → Except Unit (List Result)}
    {e : List String} {t : Nat} {u : String} (hu : u ≠ "") :
    ∀ (qs : List String) (seen : List String) (acc : List Result),
      ((multi_search_go g e t qs seen acc).pool).find? (urlIs u)
        = (acc.find? (urlIs u)).or
            (if u ∈ seen then none
             else ((multi_search_go g e t qs seen acc).consumed.flatten).find? (urlIs u)) := by
  intro qs
  induction qs with
  | nil =>
    intro seen acc
    simp only [multi_search_go, List.flatten_nil, List.find?_nil]
    split <;> simp [Option.or_none]
  | cons q qs ih =>
    intro seen acc
    rcases hg : g q 6 (e ++ seen) with x | rs
    · rw [go_error_skip hg]
      exact ih seen acc
    · by_cases hlen : t ≤ ((mergeBatch (fun r => r) (seen, acc) rs).2).length
      · rw [go_ok_stop hg hlen]
        have := @mergeBatch_find (fun r => r) (fun _ => rfl) u hu rs seen acc
        rw [this]
        simp only [List.flatten_cons, List.flatten_nil, List.append_nil, map_id_result]
      · rw [go_ok_continue hg hlen]
        rw [ih (mergeBatch (fun r => r) (seen, acc) rs).1 (mergeBatch (fun r => r) (seen, acc) rs).2]
        rw [@mergeBatch_find (fun r => r) (fun _ => rfl) u hu rs seen acc]
        simp only [List.flatten_cons, List.find?_append, map_id_result]
        by_cases hus : u ∈ seen
        · have hus' : u ∈ (mergeBatch (fun r => r) (seen, acc) rs).1 :=
            mergeBatch_seen_mono rs (seen, acc) hus
          rw [if_pos hus, if_pos hus', if_pos hus]
          simp [Option.or_none]
        · rw [if_neg hus, if_neg hus]
          rcases hfind : rs.find? (urlIs u) with _ | r
          · have hus' : u ∉ (mergeBatch (fun r => r) (seen, acc) rs).1 := by
              rw [mergeBatch_seen_mem hu rs (seen, acc)]
              rintro (h | ⟨r', hr', hu'⟩)
              · exact hus h
              · have := List.find?_eq_none.mp hfind r' hr'
                simp only [urlIs, hu'] at this
                exact this (by simp)
            rw [if_neg hus']
            simp [Option.or_assoc, Option.none_or, Option.or_none]
          · have hmem : r ∈ rs := List.mem_of_find?_eq_some hfind
            have hurl : urlKey r = u := by
              have := List.find?_some hfind
              simpa [urlIs] using this
            have hus' : u ∈ (mergeBatch (fun r => r) (seen, acc) rs).1 := by
              rw [mergeBatch_seen_mem hu rs (seen, acc)]
              exact Or.inr ⟨r, hmem, hurl⟩
            rw [if_pos hus']
            simp [Option.or_assoc, Option.or_none]

/-! ### Positional-merge and filter lemmas -/

theorem enum_map_getElem? (f : Nat × Result → Result) (l : List Result) (i : Nat) :
    (l.enum.map f)[i]? = (l[i]?).map (fun r => f (i, r)) := by
  rw [List.getElem?_map, List.getElem?_enum]
  cases l[i]? <;> rfl

theorem enum_map_length (f : Nat × Result → Result) (l : List Result) :
    (l.enum.map f).length = l.length := by
  rw [List.length_map, List.enum_length]

theorem rankByImpact_length (l : List Result) :
    (rankByImpact l).length = l.length :=
  (List.mergeSort_perm l _).length_eq

theorem substrB_iff (needle : List Char) :
    ∀ hay : List Char, substrB needle hay = true ↔ needle <:+: hay := by
  intro hay
  induction hay with
  | nil =>
    simp [substrB, List.isEmpty_iff, List.infix_nil]
  | cons c t ih =>
    rw [substrB, Bool.or_eq_true, ih, List.infix_cons_iff, List.isPrefixOf_iff_prefix]

theorem strContainsB_iff (hay needle : String) :
    strContainsB hay needle = true ↔ needle.data <:+: hay.data :=
  substrB_iff needle.data hay.data

/-! ### Unfolding equations for the enrichment functions -/

theorem analyze_impact_ok (enriched : List LLMItem) (results : List Result)
    (h : results ≠ []) :
    analyze_industry_impact (.ok enriched) results
      = filter_promotion_news (rankByImpact (impact_merge enriched results)) := by
  unfold analyze_industry_impact
  rw [if_neg (by simpa [List.isEmpty_iff] using h)]

theorem analyze_impact_err (results : List Result) :
    analyze_industry_impact (.error ()) results = results.map analyze_impact_defaults := by
  cases results with
  | nil => rfl
  | cons r rs =>
    unfold analyze_industry_impact
    rw [if_neg (by simp [List.isEmpty_iff])]

theorem angles_ok (enriched : List LLMItem) (results : List Result) (q : String)
    (h : results ≠ []) :
    analyze_story_angles (.ok enriched) results q
      = filter_promotion_news (angles_merge enriched results) := by
  unfold analyze_story_angles
  rw [if_neg (by simpa [List.isEmpty_iff] using h)]

theorem angles_err (results : List Result) (q : String) :
    analyze_story_angles (.error ()) results q = results.map angles_defaults := by
  cases results with
  | nil => rfl
  | cons r rs =>
    unfold analyze_story_angles
    rw [if_neg (by simp [List.isEmpty_iff])]

theorem enrich_ok (enriched : List LLMItem) (results : List Result) (q : String)
    (h : results ≠ []) :
    enrich_results_with_llm (.ok enriched) q results
      = rankByImpact (enrich_merge enriched results) := by
  unfold enrich_results_with_llm
  rw [if_neg (by simpa [List.isEmpty_iff] using h)]

theorem enrich_err (results : List Result) (q : String) :
    enrich_results_with_llm (.error ()) q results = results := by
  cases results with
  | nil => rfl
  | cons r rs =>
    unfold enrich_results_with_llm
    rw [if_neg (by simp [List.isEmpty_iff])]

/-! ### Shape of the positional merges at one index -/

theorem impact_merge_at (enriched : List LLMItem) (results : List Result)
    (i : Nat) (r : Result) (hr : results[i]? = some r) :
    (impact_merge enriched results)[i]?
      = some (match enriched[i]? with
              | some e =>
                { r with
                  headline := some (e.headline.getD (r.title.getD "")),
                  impact := some (e.impact.getD "MEDIUM"),
                  signals := some (e.signals.getD []),
                  so_what := some (e.so_what.getD ""),
                  industry_data := some (r.description.getD (r.snippet.getD "")) }
              | none => r) := by
  unfold impact_merge
  rw [enum_map_getElem?, hr]
  rfl

theorem angles_merge_at (enriched : List LLMItem) (results : List Result)
    (i : Nat) (r : Result) (hr : results[i]? = some r) :
    (angles_merge enriched results)[i]?
      = some (match enriched[i]? with
              | some e =>
                { r with
                  story_angle := some (e.story_angle.getD ""),
                  headline := some (e.headline.getD (r.title.getD "")),
                  why_it_matters := some (e.why_it_matters.getD ""),
                  content_type := some (e.content_type.getD "insight"),
                  so_what := some (e.why_it_matters.getD (r.so_what.getD "")),
                  industry_data := some (r.snippet.getD (r.description.getD "")) }
              | none => r) := by
  unfold angles_merge
  rw [enum_map_getElem?, hr]
  rfl

theorem enrich_merge_at (enriched : List LLMItem) (results : List Result)
    (i : Nat) (r : Result) (hr : results[i]? = some r) :
    (enrich_merge enriched results)[i]?
      = some (match enriched[i]? with
              | some e =>
                { r with
                  headline := some (e.headline.getD (r.title.getD "")),
                  title := some (e.headline.getD (r.title.getD "")),
                  industry_data := some (e.industry_data.getD (r.snippet.getD "")),
                  so_what := some (e.so_what.getD ""),
                  impact := some (e.impact.getD "MEDIUM"),
                  snippet := some (e.industry_data.getD (r.snippet.getD "")) }
              | none => r) := by
  unfold enrich_merge
  rw [enum_map_getElem?, hr]
  rfl

theorem impact_merge_tail (enriched : List LLMItem) (results : List Result)
    (i : Nat) (hi : enriched.length ≤ i) :
    (impact_merge enriched results)[i]? = results[i]? := by
  unfold impact_merge
  rw [enum_map_getElem?]
  cases results[i]? with
  | none => rfl
  | some a => simp [List.getElem?_eq_none hi]

theorem angles_merge_tail (enriched : List LLMItem) (results : List Result)
    (i : Nat) (hi : enriched.length ≤ i) :
    (angles_merge enriched results)[i]? = results[i]? := by
  unfold angles_merge
  rw [enum_map_getElem?]
  cases results[i]? with
  | none => rfl
  | some a => simp [List.getElem?_eq_none hi]

theorem enrich_merge_tail (enriched : List LLMItem) (results : List Result)
    (i : Nat) (hi : enriched.length ≤ i) :
    (enrich_merge enriched results)[i]? = results[i]? := by
  unfold enrich_merge
  rw [enum_map_getElem?]
  cases results[i]? with
  | none => rfl
  | some a => simp [List.getElem?_eq_none hi]

/-! ### Claim C1 -/

/-- C1 counterexample: with a valid JSON array of length 0 and one input
result, the single (un-merged) output result of `enrich_results_with_llm`
does NOT carry the claimed defaults: its `impact` is absent rather than
`MEDIUM`, its `headline` absent rather than the original title, and its
`so_what` absent rather than the fixed generic sentence. -/
theorem short_array_no_defaults_counterexample :
    enrich_results_with_llm (.ok []) "q" [{ title := some "T1", snippet := some "S1", url := some "u1" }]
        = [{ title := some "T1", snippet := some "S1", url := some "u1" }]
      ∧ ({ title := some "T1", snippet := some "S1", url := some "u1" } : Result).impact ≠ some "MEDIUM"
      ∧ ({ title := some "T1", snippet := some "S1", url := some "u1" } : Result).headline ≠ some "T1"
      ∧ ({ title := some "T1", snippet := some "S1", url := some "u1" } : Result).so_what
          ≠ some "Monitor this trend for potential client impact." := by
  refine ⟨?_, by decide, by decide, by decide⟩
  rw [enrich_ok _ _ _ (by decide), rankByImpact_eq_buckets]
  decide

/-- C1 (amended): with a valid JSON array of length M < N, the first M
results are merged positionally and the remaining N−M are left completely
unchanged (no default fields are added); `enrich_results_with_llm` then
stably re-sorts the whole list by impact and returns exactly N results,
while `analyze_industry_impact` and `analyze_story_angles` pass the merged
list through the promotion filter (which may drop results). -/
theorem short_array_behavior (enriched : List LLMItem) (results : List Result)
    (q : String) (hM : enriched.length < results.length) (hne : results ≠ []) :
    enrich_results_with_llm (.ok enriched) q results
        = rankByImpact (enrich_merge enriched results)
      ∧ (enrich_results_with_llm (.ok enriched) q results).length = results.length
      ∧ (∀ i, enriched.length ≤ i → (enrich_merge enriched results)[i]? = results[i]?)
      ∧ analyze_industry_impact (.ok enriched) results
          = filter_promotion_news (rankByImpact (impact_merge enriched results))
      ∧ (∀ i, enriched.length ≤ i → (impact_merge enriched results)[i]? = results[i]?)
      ∧ analyze_story_angles (.ok enriched) results q
          = filter_promotion_news (angles_merge enriched results)
      ∧ (∀ i, enriched.length ≤ i → (angles_merge enriched results)[i]? = results[i]?) := by
  refine ⟨enrich_ok enriched results q hne, ?_,
    fun i hi => enrich_merge_tail enriched results i hi,
    analyze_impact_ok enriched results hne,
    fun i hi => impact_merge_tail enriched results i hi,
    angles_ok enriched results q hne,
    fun i hi => angles_merge_tail enriched results i hi⟩
  rw [enrich_ok enriched results q hne, rankByImpact_length]
  unfold enrich_merge
  rw [enum_map_length]

/-- Witness for `short_array_behavior` at `enriched = []`,
`results = [⟨title T1w⟩]`. -/
theorem short_array_behavior_witness :
    (enrich_results_with_llm (.ok ([] : List LLMItem)) "q" [{ title := some "T1w" }]).length = 1
      ∧ (enrich_merge [] [{ title := some "T1w" }])[0]? = some { title := some "T1w" } := by
  have h := short_array_behavior [] [{ title := some "T1w" }] "q" (by decide) (by decide)
  exact ⟨h.2.1, h.2.2.1 0 (by decide)⟩

/-! ### Claim C2 -/

/-- C2 counterexample: when the LLM call raises, `enrich_results_with_llm`
returns its input unchanged — the output result carries no `impact`
(`MEDIUM` was claimed), no defaulted `headline` and no generic `so_what`. -/
theorem error_no_defaults_counterexample :
    enrich_results_with_llm (.error ()) "q" [{ title := some "T2", url := some "u2" }]
        = [{ title := some "T2", url := some "u2" }]
      ∧ ({ title := some "T2", url := some "u2" } : Result).impact ≠ some "MEDIUM"
      ∧ ({ title := some "T2", url := some "u2" } : Result).headline ≠ some "T2"
      ∧ ({ title := some "T2", url := some "u2" } : Result).so_what
          ≠ some "Monitor this trend for potential client impact." := by
  exact ⟨by decide, by decide, by decide, by decide⟩

/-- C2 (amended): on an exception (or JSON-decode failure) every
enrichment function returns exactly N results, but only
`analyze_industry_impact` (and `analyze_story_angles` with its own fields)
attaches default values; `enrich_results_with_llm` returns the results
verbatim with no defaults added. -/
theorem error_path_behavior (results : List Result) (q : String) :
    analyze_industry_impact (.error ()) results = results.map analyze_impact_defaults
      ∧ (analyze_industry_impact (.error ()) results).length = results.length
      ∧ enrich_results_with_llm (.error ()) q results = results
      ∧ analyze_story_angles (.error ()) results q = results.map angles_defaults
      ∧ (analyze_story_angles (.error ()) results q).length = results.length
      ∧ (∀ r : Result,
          (analyze_impact_defaults r).impact = some "MEDIUM"
          ∧ (analyze_impact_defaults r).headline = some (r.title.getD "Industry Update")
          ∧ (analyze_impact_defaults r).so_what
              = some "Monitor this trend for potential client impact.") := by
  refine ⟨analyze_impact_err results, ?_, enrich_err results q, angles_err results q, ?_,
    fun r => ⟨rfl, rfl, rfl⟩⟩
  · rw [analyze_impact_err results, List.length_map]
  · rw [angles_err results q, List.length_map]

/-! ### Claim C5 -/

/-- C5 counterexample: an `impact` of `"CRITICAL"` — not one of HIGH,
MEDIUM, LOW — is stored on the merged result verbatim, not coerced to
`MEDIUM`. -/
theorem impact_not_coerced_counterexample :
    (enrich_results_with_llm (.ok [{ impact := some "CRITICAL" }]) "q"
        [{ url := some "u3", title := some "T3" }]).map Result.impact = [some "CRITICAL"]
      ∧ ("CRITICAL" : String) ∉ (["HIGH", "MEDIUM", "LOW"] : List String)
      ∧ (some "CRITICAL" : Option String) ≠ some "MEDIUM" := by
  refine ⟨?_, by decide, by decide⟩
  rw [enrich_ok _ _ _ (by decide), rankByImpact_eq_buckets]
  decide

/-- C5 (amended): the merge stores the model's `impact` string verbatim
(`MEDIUM` is only the default for a missing key); a value outside
HIGH/MEDIUM/LOW is kept as-is, and the ranking key merely orders such a
value in the LOW tier. -/
theorem impact_stored_verbatim (enriched : List LLMItem) (results : List Result)
    (i : Nat) (e : LLMItem) (r : Result)
    (he : enriched[i]? = some e) (hr : results[i]? = some r) :
    ((enrich_merge enriched results)[i]?).map Result.impact
        = some (some (e.impact.getD "MEDIUM"))
      ∧ ((impact_merge enriched results)[i]?).map Result.impact
        = some (some (e.impact.getD "MEDIUM"))
      ∧ (∀ (r' : Result) (s : String), r'.impact = some s →
          s ≠ "HIGH" → s ≠ "MEDIUM" → impact_order_key r' = 2) := by
  refine ⟨?_, ?_, ?_⟩
  · rw [enrich_merge_at enriched results i r hr, he]
    rfl
  · rw [impact_merge_at enriched results i r hr, he]
    rfl
  · intro r' s h hH hM
    unfold impact_order_key
    rw [h, Option.getD_some]
    split <;> simp_all

/-- Witness for `impact_stored_verbatim` at a one-element batch whose
model reply carries `impact = "CRITICAL"`. -/
theorem impact_stored_verbatim_witness :
    ((enrich_merge [{ impact := some "CRITICAL" }] [{ url := some "u3w" }])[0]?).map Result.impact
        = some (some "CRITICAL")
      ∧ impact_order_key { url := some "u3w", impact := some "CRITICAL" } = 2 := by
  have h := impact_stored_verbatim [{ impact := some "CRITICAL" }] [{ url := some "u3w" }]
    0 { impact := some "CRITICAL" } { url := some "u3w" } (by decide) (by decide)
  exact ⟨h.1, h.2.2 _ "CRITICAL" rfl (by decide) (by decide)⟩

/-! ### Claim C8 -/

/-- C8 counterexample: `enrich_results_with_llm` destructively overwrites
the original `title` with the generated headline and the original
`snippet` with `industry_data`. -/
theorem overwrite_counterexample :
    (enrich_results_with_llm (.ok [{ headline := some "New headline", industry_data := some "Data" }])
        "q" [{ url := some "u4", title := some "Old", snippet := some "S4" }]).map Result.title
        = [some "New headline"]
      ∧ (enrich_results_with_llm (.ok [{ headline := some "New headline", industry_data := some "Data" }])
          "q" [{ url := some "u4", title := some "Old", snippet := some "S4" }]).map Result.snippet
        = [some "Data"]
      ∧ (some "New headline" : Option String) ≠ some "Old"
      ∧ (some "Data" : Option String) ≠ some "S4" := by
  refine ⟨?_, ?_, by decide, by decide⟩ <;>
    (rw [enrich_ok _ _ _ (by decide), rankByImpact_eq_buckets]; decide)

/-- C8 (amended): `analyze_industry_impact` and `analyze_story_angles`
only add derived fields — `url`, `title`, `snippet`, `description` and
`publisher` of each result are preserved; `enrich_results_with_llm`
preserves `url` and `publisher` but overwrites `title` with the generated
headline and `snippet` with the generated `industry_data`. -/
theorem enrichment_field_preservation (enriched : List LLMItem) (results : List Result)
    (i : Nat) (r : Result) (hr : results[i]? = some r) :
    (((impact_merge enriched results)[i]?).map Result.url = some r.url
      ∧ ((impact_merge enriched results)[i]?).map Result.title = some r.title
      ∧ ((impact_merge enriched results)[i]?).map Result.snippet = some r.snippet
      ∧ ((impact_merge enriched results)[i]?).map Result.description = some r.description
      ∧ ((impact_merge enriched results)[i]?).map Result.publisher = some r.publisher)
    ∧ (((angles_merge enriched results)[i]?).map Result.url = some r.url
      ∧ ((angles_merge enriched results)[i]?).map Result.title = some r.title
      ∧ ((angles_merge enriched results)[i]?).map Result.snippet = some r.snippet
      ∧ ((angles_merge enriched results)[i]?).map Result.description = some r.description
      ∧ ((angles_merge enriched results)[i]?).map Result.publisher = some r.publisher)
    ∧ (((enrich_merge enriched results)[i]?).map Result.url = some r.url
      ∧ ((enrich_merge enriched results)[i]?).map Result.publisher = some r.publisher
      ∧ ∀ e, enriched[i]? = some e →
          ((enrich_merge enriched results)[i]?).map Result.title
              = some (some (e.headline.getD (r.title.getD "")))
          ∧ ((enrich_merge enriched results)[i]?).map Result.snippet
              = some (some (e.industry_data.getD (r.snippet.getD "")))) := by
  refine ⟨⟨?_, ?_, ?_, ?_, ?_⟩, ⟨?_, ?_, ?_, ?_, ?_⟩, ⟨?_, ?_, ?_⟩⟩
  all_goals try (rw [impact_merge_at enriched results i r hr]; cases enriched[i]? <;> rfl)
  all_goals try (rw [angles_merge_at enriched results i r hr]; cases enriched[i]? <;> rfl)
  all_goals try (rw [enrich_merge_at enriched results i r hr]; cases enriched[i]? <;> rfl)
  intro e he
  rw [enrich_merge_at enriched results i r hr, he]
  exact ⟨rfl, rfl⟩

/-- Witness for `enrichment_field_preservation` at a concrete batch. -/
theorem enrichment_field_preservation_witness :
    ((impact_merge [{ headline := some "H5" }] [{ url := some "u5", title := some "T5" }])[0]?).map
        Result.title = some (some "T5")
      ∧ ((enrich_merge [{ headline := some "H5" }] [{ url := some "u5", title := some "T5" }])[0]?).map
        Result.title = some (some "H5") := by
  have h := enrichment_field_preservation [{ headline := some "H5" }]
    [{ url := some "u5", title := some "T5" }] 0 { url := some "u5", title := some "T5" } (by decide)
  refine ⟨h.1.2.1, ?_⟩
  have h2 := (h.2.2.2.2 { headline := some "H5" } (by decide)).1
  simpa using h2

/-! ### Claim C6 -/

/-- C6 counterexample: the filter also scans the `headline` field — a
result whose title+description contain no denylist phrase is nevertheless
removed because its headline contains "names new". -/
theorem filter_scope_counterexample :
    filter_promotion_news [{ title := some "quarterly results",
                             headline := some "insurer names new chief",
                             description := some "market update." }] = []
      ∧ (PROMOTION_KEYWORDS.all (fun k =>
          !(strContainsB (strLower "quarterly results" ++ " " ++ strLower "market update.") k)))
        = true := by
  exact ⟨by decide, by decide⟩

/-- C6 (amended): the filter tests the lowercased concatenation
title + " " + headline + " " + description (description falling back to
snippet); it removes exactly the results whose combined text contains some
denylist phrase as a substring and keeps the others unchanged, in their
original relative order. -/
theorem filter_exactness (results : List Result) (r : Result) :
    (filter_promotion_news results).Sublist results
      ∧ (r ∈ filter_promotion_news results ↔
          r ∈ results
          ∧ ∀ k ∈ PROMOTION_KEYWORDS, ¬ (k.data <:+: (result_combined_text r).data)) := by
  constructor
  · exact List.filter_sublist results
  · rw [filter_promotion_news, List.mem_filter]
    constructor
    · rintro ⟨hmem, hp⟩
      refine ⟨hmem, ?_⟩
      intro k hk hinf
      rw [Bool.not_eq_true'] at hp
      have := List.any_eq_false.mp (by simpa [is_promotion_news] using hp) k hk
      exact this ((strContainsB_iff _ _).mpr hinf)
    · rintro ⟨hmem, hp⟩
      refine ⟨hmem, ?_⟩
      rw [Bool.not_eq_true']
      simp only [is_promotion_news, List.any_eq_false]
      intro k hk
      rw [Bool.not_eq_true]
      rcases hb : strContainsB (result_combined_text r) k with _ | _
      · rfl
      · exact absurd ((strContainsB_iff _ _).mp hb) (hp k hk)

/-- Witness for `filter_exactness`: a clean result passes through. -/
theorem filter_exactness_witness :
    ({ title := some "rates rise" } : Result)
      ∈ filter_promotion_news [{ title := some "rates rise" }] := by
  exact (filter_exactness [{ title := some "rates rise" }] { title := some "rates rise" }).2.mpr
    ⟨by decide, by decide⟩

/-! ### Claim C7 -/

/-- C7: when every impact is one of HIGH/MEDIUM/LOW, the ranking step is
exactly the stable three-way bucket sort: all HIGH results (in incoming
order), then all MEDIUM, then all LOW. -/
theorem impact_ranking_stable (l : List Result)
    (h : ∀ r ∈ l, r.impact = some "HIGH" ∨ r.impact = some "MEDIUM" ∨ r.impact = some "LOW") :
    rankByImpact l
      = l.filter (fun r => r.impact == some "HIGH")
        ++ l.filter (fun r => r.impact == some "MEDIUM")
        ++ l.filter (fun r => r.impact == some "LOW") := by
  rw [rankByImpact_eq_buckets]
  unfold impactBucket
  have h0 : ∀ r ∈ l, (impact_order_key r == 0) = (r.impact == some "HIGH") := by
    intro r hr
    rcases h r hr with hi | hi | hi <;> simp [impact_order_key, hi]
  have h1 : ∀ r ∈ l, (impact_order_key r == 1) = (r.impact == some "MEDIUM") := by
    intro r hr
    rcases h r hr with hi | hi | hi <;> simp [impact_order_key, hi]
  have h2 : ∀ r ∈ l, (impact_order_key r == 2) = (r.impact == some "LOW") := by
    intro r hr
    rcases h r hr with hi | hi | hi <;> simp [impact_order_key, hi]
  rw [List.filter_congr h0, List.filter_congr h1, List.filter_congr h2]

/-- Witness for `impact_ranking_stable` on a concrete mixed pool: the two
HIGH entries come first in their incoming order, then MEDIUM, then LOW. -/
theorem impact_ranking_stable_witness :
    rankByImpact
        [{ url := some "m1", impact := some "MEDIUM" },
         { url := some "h1", impact := some "HIGH" },
         { url := some "l1", impact := some "LOW" },
         { url := some "h2", impact := some "HIGH" }]
      = [{ url := some "h1", impact := some "HIGH" },
         { url := some "h2", impact := some "HIGH" },
         { url := some "m1", impact := some "MEDIUM" },
         { url := some "l1", impact := some "LOW" }] := by
  rw [impact_ranking_stable _ (by decide)]
  decide

/-! ### Claim C3 -/

/-- C3: in both merged pools URLs are pairwise distinct, and the surviving
entry for a URL is the one from the first batch in which it appeared — in
the signal fan-out tagged with that first-seen batch's signal
(`firstHit`), in the cascade the first occurrence in the concatenation of
the consumed batches. -/
theorem dedup_first_occurrence_wins :
    (∀ (batches : List (String × Except Unit (List Result))) (excl : List String),
        ((search_all_signals batches excl).map urlKey).Nodup
        ∧ ∀ u : String, u ≠ "" → u ∉ excl →
            (search_all_signals batches excl).find? (urlIs u) = firstHit u batches)
    ∧ (∀ (g : String → Nat → List String → Except Unit (List Result))
         (qs : List String) (t : Nat) (e : List String),
        ((multi_search g qs t e).map urlKey).Nodup
        ∧ ∀ u : String, u ≠ "" →
            ((multi_search_go g e t qs [] []).pool).find? (urlIs u)
              = (((multi_search_go g e t qs [] []).consumed).flatten).find? (urlIs u)) := by
  constructor
  · intro batches excl
    have hinv := @signals_fold_inv excl batches (excl, [])
      ⟨fun u hu => hu, by simp, by simp⟩
    constructor
    · exact hinv.2.2
    · intro u hu hue
      show ((batches.foldl signal_step (excl, [])).2).find? (urlIs u) = _
      rw [signals_fold_find hu batches excl []]
      rw [List.find?_nil, if_neg hue, Option.none_or]
  · intro g qs t e
    constructor
    · obtain ⟨s, hs⟩ := @go_inv g e t [] qs [] []
        ⟨by simp, by simp, by simp⟩
      show (((multi_search_go g e t qs [] []).pool.take t).map urlKey).Nodup
      rw [List.map_take]
      exact List.Nodup.sublist (List.take_sublist _ _) hs.2.2
    · intro u hu
      rw [go_find hu qs [] []]
      rw [List.find?_nil, Option.none_or, if_neg (by simp)]

/-- Witness for `dedup_first_occurrence_wins`: with two signal batches
sharing the URL w1, the survivor is the first batch's entry tagged with
the first batch's signal. -/
theorem dedup_first_occurrence_wins_witness :
    (search_all_signals
        [("auto_rates", .ok [{ url := some "w1", title := some "A" }]),
         ("homeowners", .ok [{ url := some "w1", title := some "B" }, { url := some "w2" }])]
        []).find? (urlIs "w1")
      = some { url := some "w1", title := some "A", signal_source := some "auto_rates" } := by
  rw [(dedup_first_occurrence_wins.1
    [("auto_rates", .ok [{ url := some "w1", title := some "A" }]),
     ("homeowners", .ok [{ url := some "w1", title := some "B" }, { url := some "w2" }])]
    []).2 "w1" (by decide) (by decide)]
  decide

/-! ### Claim C4 -/

/-- C4: the cascade issues its gateway calls for a prefix of the query
list in order; if the first batch already reaches the target the cascade
stops after exactly one call; a raising query is skipped without aborting
(its call is recorded, the pool is unchanged); the returned list has at
most `max_results` entries and is a sublist (first-seen order) of the
concatenation of the consumed batches. -/
theorem cascade_behavior :
    (∀ (g : String → Nat → List String → Except Unit (List Result))
       (qs : List String) (t : Nat) (e : List String),
        (multi_search g qs t e).length ≤ t)
    ∧ (∀ (g : String → Nat → List String → Except Unit (List Result))
         (qs : List String) (t : Nat) (e : List String),
        ((multi_search_go g e t qs [] []).calls.map GatewayCall.query) <+: qs)
    ∧ (∀ (g : String → Nat → List String → Except Unit (List Result))
         (q : String) (qs : List String) (t : Nat) (e : List String) (rs : List Result),
        g q 6 (e ++ []) = .ok rs →
        t ≤ ((mergeBatch (fun r => r) ([], []) rs).2).length →
        (multi_search_go g e t (q :: qs) [] []).calls = [⟨q, 6, e ++ []⟩])
    ∧ (∀ (g : String → Nat → List String → Except Unit (List Result))
         (q : String) (qs : List String) (t : Nat) (e : List String) (x : Unit)
         (seen : List String) (acc : List Result),
        g q 6 (e ++ seen) = .error x →
        (multi_search_go g e t (q :: qs) seen acc).pool
            = (multi_search_go g e t qs seen acc).pool
        ∧ (multi_search_go g e t (q :: qs) seen acc).calls
            = ⟨q, 6, e ++ seen⟩ :: (multi_search_go g e t qs seen acc).calls)
    ∧ (∀ (g : String → Nat → List String → Except Unit (List Result))
         (qs : List String) (t : Nat) (e : List String),
        (multi_search g qs t e).Sublist ((multi_search_go g e t qs [] []).consumed.flatten)) := by
  refine ⟨?_, ?_, ?_, ?_, ?_⟩
  · intro g qs t e
    exact List.length_take_le t _
  · intro g qs t e
    exact go_calls_queries qs [] []
  · intro g q qs t e rs hg hlen
    rw [go_ok_stop hg hlen]
  · intro g q qs t e x seen acc hg
    rw [go_error_skip hg]
    exact ⟨rfl, rfl⟩
  · intro g qs t e
    have h1 : (multi_search g qs t e).Sublist ((multi_search_go g e t qs [] []).pool) :=
      List.take_sublist _ _
    have h2 := @go_pool_sublist g e t qs [] []
    rw [List.nil_append] at h2
    exact h1.trans h2

/-- Witness for `cascade_behavior`: a 2-query cascade whose first query
already returns 2 results for target 2 issues exactly one call; a failing
first query is skipped. -/
theorem cascade_behavior_witness :
    (multi_search_go
        (fun q _ _ => if q = "qa" then .ok [{ url := some "wa" }, { url := some "wb" }] else .error ())
        [] 2 ["qa", "qb"] [] []).calls = [⟨"qa", 6, []⟩]
    ∧ (multi_search
        (fun q _ _ => if q = "qa" then .ok [{ url := some "wa" }, { url := some "wb" }] else .error ())
        ["qa", "qb"] 2 []).length ≤ 2
    ∧ (multi_search_go
        (fun q _ _ => if q = "qa" then .ok [{ url := some "wa" }, { url := some "wb" }] else .error ())
        [] 2 ["qx", "qa"] [] []).pool
      = (multi_search_go
          (fun q _ _ => if q = "qa" then .ok [{ url := some "wa" }, { url := some "wb" }] else .error ())
          [] 2 ["qa"] [] []).pool := by
  refine ⟨?_, ?_, ?_⟩
  · exact cascade_behavior.2.2.1
      (fun q _ _ => if q = "qa" then .ok [{ url := some "wa" }, { url := some "wb" }] else .error ())
      "qa" ["qb"] 2 [] [{ url := some "wa" }, { url := some "wb" }] (by rfl) (by decide)
  · exact cascade_behavior.1
      (fun q _ _ => if q = "qa" then .ok [{ url := some "wa" }, { url := some "wb" }] else .error ())
      ["qa", "qb"] 2 []
  · exact (cascade_behavior.2.2.2.1
      (fun q _ _ => if q = "qa" then .ok [{ url := some "wa" }, { url := some "wb" }] else .error ())
      "qx" ["qa"] 2 [] () [] [] (by rfl)).1

/-! ### Claim C9 -/

/-- C9 counterexample: every gateway call of the cascade requests exactly
6 results regardless of the target; at the target 8 used by the
source-explorer route this is FEWER than the target, and not ~1.5× it. -/
theorem overfetch_counterexample :
    (multi_search_go (fun _ _ _ => .ok []) [] 8 ["q9"] [] []).calls = [⟨"q9", 6, []⟩]
      ∧ ¬ (8 ≤ 6)
      ∧ (2 * 6 : Nat) ≠ 3 * 8 := by
  exact ⟨by decide, by decide, by decide⟩

/-- C9 (amended): every gateway call issued by the cascade requests a
fixed 6 results, independent of the caller's target; this equals 1.5× the
default target of 4 but is below the target 8 used by `v2_search_sources`. -/
theorem overfetch_fixed_six :
    ∀ (g : String → Nat → List String → Except Unit (List Result))
      (e : List String) (t : Nat) (qs : List String)
      (seen : List String) (acc : List Result) (c : GatewayCall),
      c ∈ (multi_search_go g e t qs seen acc).calls → c.maxResults = 6 := by
  intro g e t qs seen acc c hc
  exact go_calls_max qs seen acc c hc

/-- Witness for `overfetch_fixed_six` at a concrete one-query cascade. -/
theorem overfetch_fixed_six_witness :
    (⟨"q9w", 6, []⟩ : GatewayCall) ∈
        (multi_search_go (fun _ _ _ => .error ()) [] 4 ["q9w"] [] []).calls
      ∧ (⟨"q9w", 6, []⟩ : GatewayCall).maxResults = 6 := by
  refine ⟨by decide, overfetch_fixed_six (fun _ _ _ => .error ()) [] 4 ["q9w"] [] []
    ⟨"q9w", 6, []⟩ (by decide)⟩

/-! ### Claim C10 -/

/-- C10: `search_all_signals` seeds its seen-URL set with the exclude
list, so no returned entry carries an excluded (or empty) URL, whatever
the gateway returns. -/
theorem exclude_urls_enforced :
    ∀ (batches : List (String × Except Unit (List Result))) (excl : List String) (r : Result),
      r ∈ search_all_signals batches excl → urlKey r ∉ excl ∧ urlKey r ≠ "" := by
  intro batches excl r hr
  have hinv := @signals_fold_inv excl batches (excl, [])
    ⟨fun u hu => hu, by simp, by simp⟩
  obtain ⟨-, hne, hnE⟩ := hinv.2.1 r hr
  exact ⟨hnE, hne⟩

/-- Witness for `exclude_urls_enforced`: the excluded URL "drop" is absent
even though the gateway returned it. -/
theorem exclude_urls_enforced_witness :
    urlKey { url := some "keep", signal_source := some "auto_rates" } ∉ (["drop"] : List String) := by
  exact (exclude_urls_enforced
    [("auto_rates", .ok [{ url := some "keep" }, { url := some "drop" }])] ["drop"]
    { url := some "keep", signal_source := some "auto_rates" } (by decide)).1
